import Mathlib

/-!
# regl-learn: streaming ring buffer (11-animate-from-to) and bouncing particles
(particles-animated)

A shallow embedding of the two demo scripts.  JavaScript numbers that only ever hold
small integers (counters, byte offsets) are modelled by `Int`; the float data of the
particles and of the vertex stage is modelled by exact rationals `ℚ`.  Where the
rounding of the JavaScript addition decides a property (the long-run behaviour of the
bouncing particles), the frame step is also given over IEEE 754 binary64 numbers:
the rationals that are fixed by `roundDouble`, added by `fadd`.
The values produced by the d3 random generators and by the d3 colour conversion are
inputs of the model.
-/

namespace AnimateFromTo

/-! ## Constants of `src/11-animate-from-to/index.js` -/

/-- How many points to draw (line 7). -/
def numPoints : Int := 50000

/-- Size of vertex data in bytes (line 10). -/
def vertSize : Int := 4 * 11

/-- Point increment (line 16). -/
def pointIncrement : Int := 10

/-- Number of chunks of the buffer (line 20); the JavaScript division is exact here. -/
def totalChunks : Int := numPoints / pointIncrement

/-- Byte length of the buffer allocated at lines 30-34. -/
def bufferLength : Int := vertSize * numPoints

/-- The two mutable globals `pointCount` (line 13) and `chunk` (line 19). -/
structure State where
  pointCount : Int
  chunk : Int
  deriving DecidableEq, Repr

/-- Initial values of the globals. -/
def initState : State := { pointCount := 0, chunk := 0 }

/-- What d3 supplies for one record: `rng()`, `rng()`, `rngv()`, `rngv()` and the
three channels of `d3.hsl(..).rgb()`. -/
structure Sample where
  x : ℚ
  y : ℚ
  xv : ℚ
  yv : ℚ
  r : ℚ
  g : ℚ
  b : ℚ

/-- One call `points.subdata(data, offset)`: the records written and the byte offset. -/
structure Subdata where
  data : List (List ℚ)
  offset : Int

/-- Number of bytes a `subdata` call writes: every number is one 4-byte float. -/
def Subdata.byteLength (w : Subdata) : Int := 4 * (w.data.map List.length).sum

/-- The array `newPoints` of lines 130-151: `pointIncrement` records, the i-th built
from the i-th sample. -/
def newPoints (draw : Nat → Sample) (time : ℚ) : List (List ℚ) :=
  (List.range pointIncrement.toNat).map fun i =>
    let s := draw i
    [s.x, s.y, 1, 0, s.xv, s.yv, time, s.r / 255, s.g / 255, s.b / 255, 1]

/-- The function `makePoint` of lines 127-173: the new globals and the list of
`subdata` calls it made. -/
def makePoint (draw : Nat → Sample) (time : ℚ) (s : State) : State × List Subdata :=
  if s.pointCount < numPoints then
    let chunk := if s.chunk ≥ totalChunks then 0 else s.chunk
    let w : Subdata := { data := newPoints draw time, offset := chunk * pointIncrement * vertSize }
    let pointCount :=
      if s.pointCount + pointIncrement < numPoints then chunk * pointIncrement
      else s.pointCount
    ({ pointCount := pointCount, chunk := chunk + 1 }, [w])
  else
    (s, [])

/-- The `count` function of `drawPoints` (lines 119-121). -/
def drawCount (s : State) : Int := s.pointCount + pointIncrement

/-- Arguments of one call of `makePoint`: the samples d3 will return and the time. -/
structure CallInput where
  draw : Nat → Sample
  time : ℚ

/-- The globals after the first `n` calls of `makePoint`, the k-th call (counted
from 0) receiving `inp k`. -/
def stateAfter (inp : Nat → CallInput) : Nat → State
  | 0 => initState
  | n + 1 => (makePoint (inp n).draw (inp n).time (stateAfter inp n)).1

/-- The `subdata` calls made by the n-th call of `makePoint` (n counted from 1). -/
def writesOfCall (inp : Nat → CallInput) (n : Nat) : List Subdata :=
  (makePoint (inp (n - 1)).draw (inp (n - 1)).time (stateAfter inp (n - 1))).2

/-- The write cursor the next call of `makePoint` uses, after the guard of line 165. -/
def writeCursor (s : State) : Int := if s.chunk ≥ totalChunks then 0 else s.chunk

/-- A fixed input used for concrete evaluations: all samples zero, time `60 * k`. -/
def sampleInput : Nat → CallInput := fun k =>
  { draw := fun _ => ⟨0, 0, 0, 0, 0, 0, 0⟩, time := 60 * k }

/-! ## Vertex stage of `drawPoints` (lines 51-79) -/

/-- GLSL `vec2`. -/
@[ext] structure Vec2 where
  x : ℚ
  y : ℚ
  deriving DecidableEq

/-- GLSL `vec4`. -/
@[ext] structure Vec4 where
  x : ℚ
  y : ℚ
  z : ℚ
  w : ℚ
  deriving DecidableEq

/-- Componentwise `a + b`. -/
def Vec2.add (a b : Vec2) : Vec2 := { x := a.x + b.x, y := a.y + b.y }

/-- Componentwise `a - b`. -/
def Vec2.sub (a b : Vec2) : Vec2 := { x := a.x - b.x, y := a.y - b.y }

/-- Vector times scalar, `a * s`. -/
def Vec2.scale (a : Vec2) (s : ℚ) : Vec2 := { x := a.x * s, y := a.y * s }

/-- The attributes of one vertex (lines 53-57). -/
structure Attributes where
  position : Vec2
  endpos : Vec2
  velocity : Vec2
  birth : ℚ
  color : Vec4

/-- What the vertex stage writes. -/
structure VertOut where
  gl_PointSize : ℚ
  gl_Position : Vec4
  fill : Vec4

/-- The local `newpos` of `main` (lines 64 and 71). -/
def newpos (time : ℚ) (a : Attributes) : Vec2 :=
  let d := a.endpos.sub a.position
  a.position.add (d.scale ((time - a.birth) / |a.velocity.x|))

/-- The vertex stage `main` (lines 63-78); the uniform `tick` is not used by it. -/
def vertMain (_tick time : ℚ) (a : Attributes) : VertOut :=
  let np := newpos time a
  { gl_PointSize := if np.x > a.endpos.x then 0 else 10,
    gl_Position := { x := np.x, y := np.y, z := 0, w := 1 },
    fill := a.color }

end AnimateFromTo

namespace ParticlesAnimated

/-! ## `src/particles-animated/index.js` -/

/-- One element of `points` (lines 15-20). -/
structure Particle where
  x : ℚ
  y : ℚ
  xv : ℚ
  yv : ℚ
  deriving DecidableEq

/-- The body of the `forEach` callback (lines 61-65), statement by statement. -/
def frameBody (d : Particle) : Particle :=
  let d1 := if d.x ≥ 1 ∨ d.x ≤ -1 then { d with xv := -d.xv } else d
  let d2 := if d1.y ≥ 1 ∨ d1.y ≤ -1 then { d1 with yv := -d1.yv } else d1
  let d3 := { d2 with x := d2.x + d2.xv }
  { d3 with y := d3.y + d3.yv }

/-- The simulation part of the frame callback (lines 60-66): `forEach` visits every
element of `points` once, in order. -/
def frame : List Particle → List Particle
  | [] => []
  | d :: ds => frameBody d :: frame ds

/-- A particle used for concrete evaluations: it leaves the domain on the x axis in
one step. -/
def sampleParticle : Particle := { x := 1 / 2, y := 0, xv := 3 / 4, yv := 0 }

/-! ### The frame step over binary64 numbers -/

/-- Nearest integer to `q`, the even one of the two when `q` is halfway. -/
def roundHalfEven (q : ℚ) : ℤ :=
  let f := ⌊q⌋
  if q - f < 1 / 2 then f
  else if 1 / 2 < q - f then f + 1
  else if f % 2 = 0 then f else f + 1

/-- Exponent of the spacing of the binary64 numbers around `q`: 53 significant bits,
and the fixed spacing `2 ^ (-1074)` of the subnormal range below `2 ^ (-1022)`. -/
def ulpExponent (q : ℚ) : ℤ := max (Int.log 2 |q|) (-1022) - 52

/-- The binary64 number a real result is rounded to (round to nearest, ties to even).
Results beyond the largest finite binary64 number, which JavaScript turns into
`Infinity`, are outside this model. -/
def roundDouble (q : ℚ) : ℚ := roundHalfEven (q / 2 ^ ulpExponent q) * 2 ^ ulpExponent q

/-- JavaScript `a + b` on Numbers: the exact sum, rounded. -/
def fadd (a b : ℚ) : ℚ := roundDouble (a + b)

/-- The body of the `forEach` callback (lines 61-65) on binary64 numbers: the
comparisons and the negation are exact, the two `+=` round. -/
def frameBody64 (d : Particle) : Particle :=
  let d1 := if d.x ≥ 1 ∨ d.x ≤ -1 then { d with xv := -d.xv } else d
  let d2 := if d1.y ≥ 1 ∨ d1.y ≤ -1 then { d1 with yv := -d1.yv } else d1
  let d3 := { d2 with x := fadd d2.x d2.xv }
  { d3 with y := fadd d3.y d3.yv }

/-- The simulation part of the frame callback (lines 60-66) on binary64 numbers. -/
def frame64 : List Particle → List Particle
  | [] => []
  | d :: ds => frameBody64 d :: frame64 ds

/-- A particle of binary64 coordinates just inside the boundary: `x = 1 - 2 ^ (-53)`,
`xv = 2 ^ (-10)`. -/
def stuckParticle : Particle := { x := 1 - 1 / 2 ^ 53, y := 0, xv := 1 / 2 ^ 10, yv := 0 }

end ParticlesAnimated

namespace AnimateFromTo

/-- A vertex used for concrete evaluations: from the origin to the target (1, 0). -/
def sampleVertex (vx : ℚ) : Attributes :=
  { position := ⟨0, 0⟩, endpos := ⟨1, 0⟩, velocity := ⟨vx, 1⟩, birth := 0,
    color := ⟨1, 0, 0, 1⟩ }

/-! ## Closed form of the globals -/

theorem totalChunks_eq : totalChunks = 5000 := by decide

/-- The division of line 20 leaves no remainder, so the integer quotient is the
JavaScript quotient. -/
theorem totalChunks_exact : totalChunks * pointIncrement = numPoints := by decide

theorem makePoint_state (draw : Nat → Sample) (time : ℚ) (s : State)
    (h : s.pointCount < numPoints) :
    (makePoint draw time s).1 =
      { pointCount := if s.pointCount + pointIncrement < numPoints
          then writeCursor s * pointIncrement else s.pointCount,
        chunk := writeCursor s + 1 } := by
  simp [makePoint, h, writeCursor]

theorem makePoint_writes (draw : Nat → Sample) (time : ℚ) (s : State)
    (h : s.pointCount < numPoints) :
    (makePoint draw time s).2 =
      [{ data := newPoints draw time, offset := writeCursor s * pointIncrement * vertSize }] := by
  simp [makePoint, h, writeCursor]

/-- After `n + 1` calls: `chunk = n % 5000 + 1` and `pointCount = min n 4999 * 10`. -/
theorem stateAfter_succ (inp : Nat → CallInput) (n : Nat) :
    (stateAfter inp (n + 1)).chunk = (n : Int) % 5000 + 1 ∧
    (stateAfter inp (n + 1)).pointCount = min (n : Int) 4999 * 10 := by
  induction n with
  | zero =>
    simp [stateAfter, makePoint, initState, numPoints, pointIncrement, totalChunks]
  | succ k ih =>
    obtain ⟨hc, hp⟩ := ih
    have hlt : (stateAfter inp (k + 1)).pointCount < numPoints := by
      rw [hp]; simp only [numPoints]; omega
    have hs : stateAfter inp (k + 1 + 1) =
        (makePoint (inp (k + 1)).draw (inp (k + 1)).time (stateAfter inp (k + 1))).1 := rfl
    rw [hs, makePoint_state _ _ _ hlt]
    simp only [writeCursor, totalChunks_eq, numPoints, pointIncrement, hc, hp]
    push_cast
    constructor
    · split_ifs <;> omega
    · split_ifs <;> omega

theorem stateAfter_pointCount_lt (inp : Nat → CallInput) (n : Nat) :
    (stateAfter inp n).pointCount < numPoints := by
  cases n with
  | zero => simp [stateAfter, initState, numPoints]
  | succ k =>
    rw [(stateAfter_succ inp k).2]; simp only [numPoints]; omega

theorem stateAfter_pointCount_nonneg (inp : Nat → CallInput) (n : Nat) :
    0 ≤ (stateAfter inp n).pointCount := by
  cases n with
  | zero => simp [stateAfter, initState]
  | succ k =>
    rw [(stateAfter_succ inp k).2]; omega

theorem writeCursor_stateAfter (inp : Nat → CallInput) (n : Nat) :
    writeCursor (stateAfter inp n) = (n : Int) % 5000 := by
  cases n with
  | zero => simp [stateAfter, initState, writeCursor, totalChunks_eq]
  | succ k =>
    simp only [writeCursor, totalChunks_eq, (stateAfter_succ inp k).1]
    push_cast
    split_ifs <;> omega

theorem makePoint_stateAfter_writes (inp : Nat → CallInput) (n : Nat)
    (draw : Nat → Sample) (time : ℚ) :
    (makePoint draw time (stateAfter inp n)).2 =
      [{ data := newPoints draw time, offset := (n : Int) % 5000 * pointIncrement * vertSize }] := by
  rw [makePoint_writes _ _ _ (stateAfter_pointCount_lt inp n), writeCursor_stateAfter]

theorem writesOfCall_succ (inp : Nat → CallInput) (n : Nat) :
    writesOfCall inp (n + 1) =
      [{ data := newPoints (inp n).draw (inp n).time,
         offset := (n : Int) % 5000 * pointIncrement * vertSize }] := by
  simp only [writesOfCall, Nat.add_sub_cancel]
  exact makePoint_stateAfter_writes inp n _ _

theorem newPoints_lengths (draw : Nat → Sample) (time : ℚ) :
    (newPoints draw time).map List.length = List.replicate 10 11 := by
  simp [newPoints, pointIncrement, List.range_succ]

theorem newPoints_length (draw : Nat → Sample) (time : ℚ) :
    (newPoints draw time).length = 10 := by
  simp [newPoints, pointIncrement]

theorem newPoints_record_length (draw : Nat → Sample) (time : ℚ) (r : List ℚ)
    (h : r ∈ newPoints draw time) : r.length = 11 := by
  simp only [newPoints, List.mem_map] at h
  obtain ⟨i, _, rfl⟩ := h
  rfl

/-! ## The ring buffer writes of `makePoint` -/

/-- C1: from the initial state, for every n >= 1 the n-th call of `makePoint` makes
exactly one `subdata` call; it writes the chunk `newPoints` of exactly
`pointIncrement` (10) records of 11 numbers each (11 * 4 = `vertSize` bytes a record)
at byte offset `((n - 1) mod totalChunks) * pointIncrement * vertSize`, where
`totalChunks = numPoints / pointIncrement = 5000`; the first call writes at byte
offset 0 and the second at 10 * 44 = 440. -/
theorem makePoint_nth_call_writes_one_chunk (inp : Nat → CallInput) (n : Nat) (hn : 1 ≤ n) :
    writesOfCall inp n =
        [{ data := newPoints (inp (n - 1)).draw (inp (n - 1)).time,
           offset := ((n : Int) - 1) % totalChunks * pointIncrement * vertSize }] ∧
      ((newPoints (inp (n - 1)).draw (inp (n - 1)).time).length : Int) = pointIncrement ∧
      (∀ r ∈ newPoints (inp (n - 1)).draw (inp (n - 1)).time, r.length = 11) ∧
      (11 : Int) * 4 = vertSize ∧
      totalChunks = numPoints / pointIncrement ∧ totalChunks = 5000 ∧
      (writesOfCall inp 1).map Subdata.offset = [0] ∧
      (writesOfCall inp 2).map Subdata.offset = [10 * 44] := by
  obtain ⟨m, rfl⟩ : ∃ m, n = m + 1 := ⟨n - 1, by omega⟩
  refine ⟨?_, ?_, ?_, by decide, rfl, totalChunks_eq, ?_, ?_⟩
  · rw [writesOfCall_succ, totalChunks_eq]
    simp only [Nat.add_sub_cancel]
    push_cast
    simp
  · rw [newPoints_length]; rfl
  · exact fun r hr => newPoints_record_length _ _ r hr
  · rw [writesOfCall_succ inp 0]; simp
  · rw [writesOfCall_succ inp 1]; simp [pointIncrement, vertSize]

/-- Witness for C1 at the second call, which writes at byte offset 440. -/
theorem makePoint_nth_call_writes_one_chunk_witness :
    1 ≤ 2 ∧ (writesOfCall sampleInput 2).map Subdata.offset = [440] ∧
      (writesOfCall sampleInput 2).length = 1 := by
  have h := makePoint_nth_call_writes_one_chunk sampleInput 2 (by decide)
  refine ⟨by decide, ?_, ?_⟩
  · rw [h.1]; simp [totalChunks_eq, pointIncrement, vertSize]
  · rw [h.1]; rfl

/-- C2: in every state reached from the initial state by any number of `makePoint`
calls, the next call of `makePoint` writes exactly one chunk, of
`pointIncrement * vertSize` bytes, whose byte range starts at an offset >= 0 and ends
at most at the buffer length `vertSize * numPoints`; and the draw count
`pointCount + pointIncrement` is at most `numPoints`. -/
theorem buffer_access_within_allocation (inp : Nat → CallInput) (n : Nat)
    (draw : Nat → Sample) (time : ℚ) :
    bufferLength = vertSize * numPoints ∧
      (makePoint draw time (stateAfter inp n)).2.length = 1 ∧
      (∀ w ∈ (makePoint draw time (stateAfter inp n)).2,
        0 ≤ w.offset ∧ w.byteLength = pointIncrement * vertSize ∧
          w.offset + pointIncrement * vertSize ≤ bufferLength) ∧
      drawCount (stateAfter inp n) ≤ numPoints ∧
      drawCount (stateAfter inp n) * vertSize ≤ bufferLength := by
  have hd : drawCount (stateAfter inp n) ≤ numPoints := by
    cases n with
    | zero => simp [drawCount, stateAfter, initState, numPoints, pointIncrement]
    | succ k =>
      simp only [drawCount, (stateAfter_succ inp k).2, numPoints, pointIncrement]
      omega
  refine ⟨rfl, ?_, ?_, hd, ?_⟩
  · rw [makePoint_stateAfter_writes]; rfl
  · intro w hw
    rw [makePoint_stateAfter_writes, List.mem_singleton] at hw
    subst hw
    refine ⟨?_, ?_, ?_⟩
    · simp only [pointIncrement, vertSize]; omega
    · simp [Subdata.byteLength, newPoints_lengths, pointIncrement, vertSize]
    · simp only [pointIncrement, vertSize, bufferLength, numPoints]; omega
  · simp only [vertSize, bufferLength, numPoints] at hd ⊢
    omega

/-! ## The write cursor `chunk` -/

/-- C3, as stated, fails: after exactly `totalChunks` = 5000 calls the stored cursor
`chunk` is 5000, which is neither below `totalChunks` nor back at 0. -/
theorem chunk_after_totalChunks_calls_not_wrapped :
    (stateAfter sampleInput 5000).chunk = 5000 ∧
      ¬ ((stateAfter sampleInput 5000).chunk < totalChunks) ∧
      (stateAfter sampleInput 5000).chunk ≠ 0 := by
  have h := (stateAfter_succ sampleInput 4999).1
  norm_num at h
  rw [h, totalChunks_eq]
  decide

/-- C3, amended: after any number n of calls the stored cursor satisfies
`0 <= chunk <= totalChunks`; the cursor the next call writes at (after the guard of
line 165) satisfies `0 <= c < totalChunks` and the call writes at byte offset
`c * pointIncrement * vertSize`; after exactly `totalChunks` calls the stored cursor
equals `totalChunks`, and call number `totalChunks + 1` resets it, writes at byte
offset 0 and leaves `chunk = 1`. -/
theorem chunk_bounds_and_lazy_wrap (inp : Nat → CallInput) (n : Nat) :
    (0 ≤ (stateAfter inp n).chunk ∧ (stateAfter inp n).chunk ≤ totalChunks) ∧
      (0 ≤ writeCursor (stateAfter inp n) ∧ writeCursor (stateAfter inp n) < totalChunks) ∧
      (writesOfCall inp (n + 1)).map Subdata.offset =
        [writeCursor (stateAfter inp n) * pointIncrement * vertSize] ∧
      (stateAfter inp totalChunks.toNat).chunk = totalChunks ∧
      (writesOfCall inp (totalChunks.toNat + 1)).map Subdata.offset = [0] ∧
      (stateAfter inp (totalChunks.toNat + 1)).chunk = 1 := by
  have ht : totalChunks.toNat = 4999 + 1 := by decide
  refine ⟨?_, ?_, ?_, ?_, ?_, ?_⟩
  · cases n with
    | zero => simp [stateAfter, initState, totalChunks_eq]
    | succ k => rw [(stateAfter_succ inp k).1, totalChunks_eq]; omega
  · rw [writeCursor_stateAfter, totalChunks_eq]; omega
  · rw [writesOfCall_succ, writeCursor_stateAfter]; rfl
  · rw [ht, (stateAfter_succ inp 4999).1, totalChunks_eq]; norm_num
  · rw [ht, writesOfCall_succ]; simp
  · rw [ht, (stateAfter_succ inp (4999 + 1)).1]; norm_num

/-! ## Spawning never stops -/

/-- C4, as stated, fails: there is no number N after which the calls of `makePoint`
perform no buffer write and leave the globals unchanged. -/
theorem spawning_never_stops :
    ¬ ∃ N : Nat, ∀ (inp : Nat → CallInput) (n : Nat), N < n →
      writesOfCall inp n = [] ∧ stateAfter inp n = stateAfter inp (n - 1) := by
  rintro ⟨N, h⟩
  have h1 := (h sampleInput (N + 1) (Nat.lt_succ_self N)).1
  rw [writesOfCall_succ] at h1
  exact List.cons_ne_nil _ _ h1

/-- C4, amended: `pointCount` stops increasing once it has reached
`numPoints - pointIncrement` = 49990, which it has after `totalChunks` = 5000 calls:
every later call leaves `pointCount` unchanged, but it still performs exactly one
buffer write and changes `chunk`; the guard `pointCount < numPoints` holds in every
reachable state. -/
theorem pointCount_saturates_writes_continue (inp : Nat → CallInput) (n : Nat)
    (hn : totalChunks.toNat ≤ n) :
    (stateAfter inp n).pointCount = numPoints - pointIncrement ∧
      (stateAfter inp (n + 1)).pointCount = (stateAfter inp n).pointCount ∧
      (writesOfCall inp (n + 1)).length = 1 ∧
      (stateAfter inp (n + 1)).chunk ≠ (stateAfter inp n).chunk ∧
      (stateAfter inp n).pointCount < numPoints := by
  have ht : totalChunks.toNat = 5000 := by decide
  rw [ht] at hn
  obtain ⟨m, rfl⟩ : ∃ m, n = m + 1 := ⟨n - 1, by omega⟩
  have h1 := stateAfter_succ inp m
  have h2 := stateAfter_succ inp (m + 1)
  refine ⟨?_, ?_, ?_, ?_, stateAfter_pointCount_lt inp _⟩
  · rw [h1.2]; simp only [numPoints, pointIncrement]; omega
  · rw [h1.2, h2.2]; push_cast; omega
  · rw [writesOfCall_succ]; rfl
  · rw [h1.1, h2.1]; push_cast; omega

/-- Witness for the amended C4 at n = 5000. -/
theorem pointCount_saturates_writes_continue_witness :
    totalChunks.toNat ≤ 5000 ∧
      (stateAfter sampleInput 5000).pointCount = 49990 ∧
      (writesOfCall sampleInput 5001).length = 1 :=
  have h := pointCount_saturates_writes_continue sampleInput 5000 (by decide)
  ⟨by decide, h.1, h.2.2.1⟩

/-! ## The draw count -/

/-- C5, the code at the failing input: the first call of `makePoint` writes 10
particles and leaves `pointCount` at 0, not at the number of particles spawned so
far (`pointIncrement` = 10), and the draw count at 10, not at 20. -/
theorem pointCount_after_first_call :
    (writesOfCall sampleInput 1).map (fun w => w.data.length) = [10] ∧
      (stateAfter sampleInput 1).pointCount = 0 ∧
      (stateAfter sampleInput 1).pointCount ≠ 1 * pointIncrement ∧
      drawCount (stateAfter sampleInput 1) = 10 ∧
      drawCount (stateAfter sampleInput 1) ≠ 1 * pointIncrement + pointIncrement := by
  have h := (stateAfter_succ sampleInput 0).2
  norm_num at h
  refine ⟨?_, ?_⟩
  · rw [writesOfCall_succ sampleInput 0]
    simp [newPoints_length]
  · simp only [drawCount, h, pointIncrement]
    decide

/-- The extent of the lag of `pointCount`: for every n with 1 <= n < totalChunks,
after n calls of `makePoint` `pointCount` is `(n - 1) * pointIncrement`, one chunk less
than the `n * pointIncrement` particles spawned so far, and the draw count
`pointCount + pointIncrement` is `n * pointIncrement`. -/
theorem drawCount_eq_spawned (inp : Nat → CallInput) (n : Nat) (h1 : 1 ≤ n)
    (h2 : (n : Int) < totalChunks) :
    (stateAfter inp n).pointCount = ((n : Int) - 1) * pointIncrement ∧
      drawCount (stateAfter inp n) = (n : Int) * pointIncrement := by
  rw [totalChunks_eq] at h2
  obtain ⟨m, rfl⟩ : ∃ m, n = m + 1 := ⟨n - 1, by omega⟩
  simp only [drawCount, (stateAfter_succ inp m).2, pointIncrement]
  push_cast at h2 ⊢
  omega

end AnimateFromTo

namespace ParticlesAnimated

/-! ## The frame step of the bouncing particles -/

theorem frameBody_eq (d : Particle) :
    frameBody d =
      { x := d.x + (if d.x ≥ 1 ∨ d.x ≤ -1 then -d.xv else d.xv),
        y := d.y + (if d.y ≥ 1 ∨ d.y ≤ -1 then -d.yv else d.yv),
        xv := if d.x ≥ 1 ∨ d.x ≤ -1 then -d.xv else d.xv,
        yv := if d.y ≥ 1 ∨ d.y ≤ -1 then -d.yv else d.yv } := by
  unfold frameBody
  by_cases hx : d.x ≥ 1 ∨ d.x ≤ -1 <;> by_cases hy : d.y ≥ 1 ∨ d.y ≤ -1 <;>
    simp only [hx, hy, if_true, if_false]

theorem frame_eq_map (ps : List Particle) : frame ps = ps.map frameBody := by
  induction ps with
  | nil => rfl
  | cons d ds ih => simp [frame, ih]

theorem frame_iterate (k : Nat) (ps : List Particle) :
    frame^[k] ps = ps.map frameBody^[k] := by
  induction k generalizing ps with
  | zero => simp
  | succ k ih =>
    rw [Function.iterate_succ_apply, ih, frame_eq_map, List.map_map]
    apply List.map_congr_left
    intro d _
    simp [Function.iterate_succ_apply]

theorem frame_iterate_getElem? (k : Nat) (ps : List Particle) (i : Nat) :
    (frame^[k] ps)[i]? = (ps[i]?).map frameBody^[k] := by
  rw [frame_iterate, List.getElem?_map]

theorem frameBody_iterate_zero_velocity (k : Nat) (p : Particle) (hx : p.xv = 0)
    (hy : p.yv = 0) : frameBody^[k] p = p := by
  induction k with
  | zero => rfl
  | succ k ih =>
    rw [Function.iterate_succ_apply', ih, frameBody_eq]
    cases p
    simp only at hx hy
    subst hx hy
    simp

/-- On the x axis, a particle that started strictly inside keeps its speed, and is
either strictly inside or was strictly inside one step earlier. -/
theorem frameBody_iterate_x (k : Nat) (p : Particle) (h1 : -1 < p.x) (h2 : p.x < 1) :
    |(frameBody^[k] p).xv| = |p.xv| ∧
      (|(frameBody^[k] p).x| < 1 ∨ |(frameBody^[k] p).x - (frameBody^[k] p).xv| < 1) := by
  induction k with
  | zero => exact ⟨rfl, Or.inl (abs_lt.mpr ⟨h1, h2⟩)⟩
  | succ k ih =>
    obtain ⟨hv, hi⟩ := ih
    rw [Function.iterate_succ_apply', frameBody_eq]
    by_cases hb : (frameBody^[k] p).x ≥ 1 ∨ (frameBody^[k] p).x ≤ -1
    · simp only [hb, if_true, abs_neg]
      refine ⟨hv, Or.inl ?_⟩
      rcases hi with hi | hi
      · rw [abs_lt] at hi
        rcases hb with hb | hb <;> linarith
      · rwa [← sub_eq_add_neg]
    · simp only [hb, if_false]
      refine ⟨hv, Or.inr ?_⟩
      rw [add_sub_cancel_right]
      push_neg at hb
      exact abs_lt.mpr ⟨hb.2, hb.1⟩

/-- The y axis behaves as the x axis. -/
theorem frameBody_iterate_y (k : Nat) (p : Particle) (h1 : -1 < p.y) (h2 : p.y < 1) :
    |(frameBody^[k] p).yv| = |p.yv| ∧
      (|(frameBody^[k] p).y| < 1 ∨ |(frameBody^[k] p).y - (frameBody^[k] p).yv| < 1) := by
  induction k with
  | zero => exact ⟨rfl, Or.inl (abs_lt.mpr ⟨h1, h2⟩)⟩
  | succ k ih =>
    obtain ⟨hv, hi⟩ := ih
    rw [Function.iterate_succ_apply', frameBody_eq]
    by_cases hb : (frameBody^[k] p).y ≥ 1 ∨ (frameBody^[k] p).y ≤ -1
    · simp only [hb, if_true, abs_neg]
      refine ⟨hv, Or.inl ?_⟩
      rcases hi with hi | hi
      · rw [abs_lt] at hi
        rcases hb with hb | hb <;> linarith
      · rwa [← sub_eq_add_neg]
    · simp only [hb, if_false]
      refine ⟨hv, Or.inr ?_⟩
      rw [add_sub_cancel_right]
      push_neg at hb
      exact abs_lt.mpr ⟨hb.2, hb.1⟩

/-- C6: one frame step maps every particle `(x, y, xv, yv)` of `points`, whatever the
other particles are, to `(x + xv', y + yv', xv', yv')` with `xv' = -xv` if `x >= 1` or
`x <= -1` and `xv' = xv` otherwise, and `yv' = -yv` if `y >= 1` or `y <= -1` and
`yv' = yv` otherwise; a particle with `x >= 1` and `xv > 0` ends the step with
x-velocity `-xv` and x-position `x - |xv|`, which is `1 - |xv|` when `x = 1`. -/
theorem frame_maps_each_particle (ps : List Particle) (i : Nat) :
    (frame ps).length = ps.length ∧
      (frame ps)[i]? = (ps[i]?).map (fun d =>
        { x := d.x + (if d.x ≥ 1 ∨ d.x ≤ -1 then -d.xv else d.xv),
          y := d.y + (if d.y ≥ 1 ∨ d.y ≤ -1 then -d.yv else d.yv),
          xv := if d.x ≥ 1 ∨ d.x ≤ -1 then -d.xv else d.xv,
          yv := if d.y ≥ 1 ∨ d.y ≤ -1 then -d.yv else d.yv }) ∧
      (∀ d : Particle, ps[i]? = some d → d.x ≥ 1 → d.xv > 0 →
        ∃ q, (frame ps)[i]? = some q ∧ q.xv = -d.xv ∧ q.x = d.x - |d.xv| ∧
          (d.x = 1 → q.x = 1 - |d.xv|)) := by
  have hmap : (frame ps)[i]? = (ps[i]?).map frameBody := by
    rw [frame_eq_map, List.getElem?_map]
  refine ⟨by rw [frame_eq_map, List.length_map], ?_, ?_⟩
  · rw [hmap]
    congr 1
    funext d
    exact frameBody_eq d
  · intro d hd hx hv
    refine ⟨frameBody d, by rw [hmap, hd]; rfl, ?_, ?_, ?_⟩
    · rw [frameBody_eq]; simp [hx]
    · rw [frameBody_eq]; simp only [hx, true_or, if_true, abs_of_pos hv]; ring
    · intro h1
      rw [frameBody_eq]; simp only [hx, true_or, if_true, abs_of_pos hv]; linarith

/-- Witness for C6: of two particles the first, at `x = 1` with `xv = 1/4`, is
reflected and the second, strictly inside, moves on. -/
theorem frame_maps_each_particle_witness :
    frame [⟨1, 0, 1 / 4, 1 / 8⟩, ⟨1 / 2, -1, 1 / 4, 1 / 8⟩] =
      [⟨3 / 4, 1 / 8, -(1 / 4), 1 / 8⟩, ⟨3 / 4, -9 / 8, 1 / 4, -(1 / 8)⟩] := by
  have h0 := (frame_maps_each_particle [⟨1, 0, 1 / 4, 1 / 8⟩, ⟨1 / 2, -1, 1 / 4, 1 / 8⟩] 0).2.1
  have h1 := (frame_maps_each_particle [⟨1, 0, 1 / 4, 1 / 8⟩, ⟨1 / 2, -1, 1 / 4, 1 / 8⟩] 1).2.1
  simp only [frame] at h0 h1 ⊢
  norm_num at h0 h1
  rw [h0, h1]
  norm_num

/-- C7: a particle of `points` with `xv = 0` and `yv = 0`, at any position, has the
same position `(x, y)` after any number k of frame steps. -/
theorem zero_velocity_position_unchanged (ps : List Particle) (i : Nat) (p : Particle)
    (k : Nat) (hp : ps[i]? = some p) (hx : p.xv = 0) (hy : p.yv = 0) :
    ∃ q, (frame^[k] ps)[i]? = some q ∧ q.x = p.x ∧ q.y = p.y := by
  refine ⟨frameBody^[k] p, ?_, ?_, ?_⟩
  · rw [frame_iterate_getElem?, hp]; rfl
  · rw [frameBody_iterate_zero_velocity k p hx hy]
  · rw [frameBody_iterate_zero_velocity k p hx hy]

/-- Witness for C7: a particle at rest outside the boundary, five frames. -/
theorem zero_velocity_position_unchanged_witness :
    ∃ q : Particle, (frame^[5] [⟨3, -1, 0, 0⟩])[0]? = some q ∧ q.x = 3 ∧ q.y = -1 :=
  zero_velocity_position_unchanged [⟨3, -1, 0, 0⟩] 0 ⟨3, -1, 0, 0⟩ 5 rfl rfl rfl

/-! ## Excursions beyond the boundary -/

/-- In exact arithmetic, a particle that started strictly inside on the x axis stays
below `1 + |v0|` in magnitude and is back inside one step after being outside. -/
theorem frameBody_excursion_x (k : Nat) (p : Particle) (h1 : -1 < p.x) (h2 : p.x < 1) :
    |(frameBody^[k] p).x| < 1 + |p.xv| ∧
      ((frameBody^[k] p).x ≥ 1 ∨ (frameBody^[k] p).x ≤ -1 →
        -1 < (frameBody^[k + 1] p).x ∧ (frameBody^[k + 1] p).x < 1) := by
  obtain ⟨hv, hi⟩ := frameBody_iterate_x k p h1 h2
  constructor
  · rw [← hv]
    rcases hi with hi | hi
    · linarith [abs_nonneg (frameBody^[k] p).xv]
    · have := abs_sub_abs_le_abs_sub (frameBody^[k] p).x (frameBody^[k] p).xv
      linarith
  · intro hb
    have hout : ¬ |(frameBody^[k] p).x| < 1 := by
      rw [abs_lt]; rintro ⟨ha, hc⟩
      rcases hb with hb | hb <;> linarith
    have hin := abs_lt.mp (hi.resolve_left hout)
    rw [Function.iterate_succ_apply', frameBody_eq]
    simp only [hb, if_true]
    constructor <;> linarith

/-- The y axis behaves as the x axis. -/
theorem frameBody_excursion_y (k : Nat) (p : Particle) (h1 : -1 < p.y) (h2 : p.y < 1) :
    |(frameBody^[k] p).y| < 1 + |p.yv| ∧
      ((frameBody^[k] p).y ≥ 1 ∨ (frameBody^[k] p).y ≤ -1 →
        -1 < (frameBody^[k + 1] p).y ∧ (frameBody^[k + 1] p).y < 1) := by
  obtain ⟨hv, hi⟩ := frameBody_iterate_y k p h1 h2
  constructor
  · rw [← hv]
    rcases hi with hi | hi
    · linarith [abs_nonneg (frameBody^[k] p).yv]
    · have := abs_sub_abs_le_abs_sub (frameBody^[k] p).y (frameBody^[k] p).yv
      linarith
  · intro hb
    have hout : ¬ |(frameBody^[k] p).y| < 1 := by
      rw [abs_lt]; rintro ⟨ha, hc⟩
      rcases hb with hb | hb <;> linarith
    have hin := abs_lt.mp (hi.resolve_left hout)
    rw [Function.iterate_succ_apply', frameBody_eq]
    simp only [hb, if_true]
    constructor <;> linarith

/-! ### Rounding to binary64 -/

theorem int_log_two_eq {r : ℚ} {e : ℤ} (h1 : (2 : ℚ) ^ e ≤ r) (h2 : r < (2 : ℚ) ^ (e + 1)) :
    Int.log 2 r = e := by
  have hr : 0 < r := lt_of_lt_of_le (zpow_pos (by norm_num) e) h1
  have a : e ≤ Int.log 2 r :=
    (Int.zpow_le_iff_le_log (by norm_num) hr).mp (by exact_mod_cast h1)
  have b : Int.log 2 r < e + 1 :=
    (Int.lt_zpow_iff_log_lt (by norm_num) hr).mp (by exact_mod_cast h2)
  omega

theorem roundHalfEven_intCast (f : ℤ) : roundHalfEven f = f := by
  simp [roundHalfEven]

theorem roundHalfEven_half (q : ℚ) (f : ℤ) (h : q = f + 1 / 2) :
    roundHalfEven q = if f % 2 = 0 then f else f + 1 := by
  have hf : ⌊q⌋ = f := by
    rw [Int.floor_eq_iff, h]; constructor <;> linarith
  simp only [roundHalfEven, hf, h]
  norm_num

theorem roundDouble_eq {q : ℚ} {e : ℤ} (h1 : (2 : ℚ) ^ e ≤ |q|) (h2 : |q| < (2 : ℚ) ^ (e + 1))
    (he : -1022 ≤ e) : roundDouble q = roundHalfEven (q / 2 ^ (e - 52)) * 2 ^ (e - 52) := by
  have : ulpExponent q = e - 52 := by
    rw [ulpExponent, int_log_two_eq h1 h2, max_eq_left he]
  rw [roundDouble, this]

/-- A multiple of the spacing of its own binade is a binary64 number. -/
theorem roundDouble_fix {q : ℚ} {e : ℤ} (z : ℤ) (h1 : (2 : ℚ) ^ e ≤ |q|)
    (h2 : |q| < (2 : ℚ) ^ (e + 1)) (he : -1022 ≤ e) (hz : q = z * 2 ^ (e - 52)) :
    roundDouble q = q := by
  rw [roundDouble_eq h1 h2 he]
  have hne : (2 : ℚ) ^ (e - 52) ≠ 0 := zpow_ne_zero _ (by norm_num)
  have : q / 2 ^ (e - 52) = z := by rw [hz]; field_simp
  rw [this, roundHalfEven_intCast, ← hz]

theorem roundDouble_zero : roundDouble 0 = 0 := by
  simp [roundDouble, roundHalfEven]

/-! ### The frame step over binary64 numbers -/

theorem frameBody64_eq (d : Particle) :
    frameBody64 d =
      { x := fadd d.x (if d.x ≥ 1 ∨ d.x ≤ -1 then -d.xv else d.xv),
        y := fadd d.y (if d.y ≥ 1 ∨ d.y ≤ -1 then -d.yv else d.yv),
        xv := if d.x ≥ 1 ∨ d.x ≤ -1 then -d.xv else d.xv,
        yv := if d.y ≥ 1 ∨ d.y ≤ -1 then -d.yv else d.yv } := by
  unfold frameBody64
  by_cases hx : d.x ≥ 1 ∨ d.x ≤ -1 <;> by_cases hy : d.y ≥ 1 ∨ d.y ≤ -1 <;>
    simp only [hx, hy, if_true, if_false]

theorem frame64_eq_map (ps : List Particle) : frame64 ps = ps.map frameBody64 := by
  induction ps with
  | nil => rfl
  | cons d ds ih => simp [frame64, ih]

theorem frame64_iterate (k : Nat) (ps : List Particle) :
    frame64^[k] ps = ps.map frameBody64^[k] := by
  induction k generalizing ps with
  | zero => simp
  | succ k ih =>
    rw [Function.iterate_succ_apply, ih, frame64_eq_map, List.map_map]
    apply List.map_congr_left
    intro d _
    simp [Function.iterate_succ_apply]

theorem frame64_iterate_getElem? (k : Nat) (ps : List Particle) (i : Nat) :
    (frame64^[k] ps)[i]? = (ps[i]?).map frameBody64^[k] := by
  rw [frame64_iterate, List.getElem?_map]

/-- The speed on each axis never changes: the velocities are only negated. -/
theorem frameBody64_iterate_speed (k : Nat) (p : Particle) :
    |(frameBody64^[k] p).xv| = |p.xv| ∧ |(frameBody64^[k] p).yv| = |p.yv| := by
  induction k with
  | zero => exact ⟨rfl, rfl⟩
  | succ k ih =>
    rw [Function.iterate_succ_apply', frameBody64_eq]
    constructor
    · rw [← ih.1]; dsimp only; split_ifs <;> simp
    · rw [← ih.2]; dsimp only; split_ifs <;> simp

/-- As long as the x updates do not round, the binary64 trajectory on the x axis is
the exact one. -/
theorem frameBody64_iterate_x_of_exact (k : Nat) (p : Particle)
    (hex : ∀ j < k, (frameBody64 (frameBody64^[j] p)).x =
      (frameBody64^[j] p).x + (frameBody64 (frameBody64^[j] p)).xv) :
    (frameBody64^[k] p).x = (frameBody^[k] p).x ∧
      (frameBody64^[k] p).xv = (frameBody^[k] p).xv := by
  induction k with
  | zero => exact ⟨rfl, rfl⟩
  | succ k ih =>
    obtain ⟨hx, hv⟩ := ih fun j hj => hex j (Nat.lt_succ_of_lt hj)
    have he := hex k (Nat.lt_succ_self k)
    have hv2 : (frameBody64 (frameBody64^[k] p)).xv = (frameBody (frameBody^[k] p)).xv := by
      rw [frameBody64_eq, frameBody_eq]; simp only [hx, hv]
    rw [Function.iterate_succ_apply', Function.iterate_succ_apply']
    refine ⟨?_, hv2⟩
    rw [he, hv2, hx, frameBody_eq]

/-- The y axis behaves as the x axis. -/
theorem frameBody64_iterate_y_of_exact (k : Nat) (p : Particle)
    (hex : ∀ j < k, (frameBody64 (frameBody64^[j] p)).y =
      (frameBody64^[j] p).y + (frameBody64 (frameBody64^[j] p)).yv) :
    (frameBody64^[k] p).y = (frameBody^[k] p).y ∧
      (frameBody64^[k] p).yv = (frameBody^[k] p).yv := by
  induction k with
  | zero => exact ⟨rfl, rfl⟩
  | succ k ih =>
    obtain ⟨hx, hv⟩ := ih fun j hj => hex j (Nat.lt_succ_of_lt hj)
    have he := hex k (Nat.lt_succ_self k)
    have hv2 : (frameBody64 (frameBody64^[k] p)).yv = (frameBody (frameBody^[k] p)).yv := by
      rw [frameBody64_eq, frameBody_eq]; simp only [hx, hv]
    rw [Function.iterate_succ_apply', Function.iterate_succ_apply']
    refine ⟨?_, hv2⟩
    rw [he, hv2, hx, frameBody_eq]

theorem fadd_stuck_out : fadd (1 - 1 / 2 ^ 53) (1 / 2 ^ 10) = 1 + 1 / 2 ^ 10 := by
  have hq : |(1 - 1 / 2 ^ 53 + 1 / 2 ^ 10 : ℚ)| = 1 - 1 / 2 ^ 53 + 1 / 2 ^ 10 :=
    abs_of_pos (by norm_num)
  rw [fadd, roundDouble_eq (e := 0) (by rw [hq]; norm_num) (by rw [hq]; norm_num)
    (by norm_num)]
  rw [roundHalfEven_half _ (2 ^ 52 + 2 ^ 42 - 1) (by norm_num)]
  norm_num

theorem fadd_stuck_back : fadd (1 + 1 / 2 ^ 10) (-(1 / 2 ^ 10)) = 1 := by
  have h : (1 + 1 / 2 ^ 10 + -(1 / 2 ^ 10) : ℚ) = 1 := by norm_num
  rw [fadd, h]
  exact roundDouble_fix (e := 0) (2 ^ 52) (by norm_num) (by norm_num) (by norm_num)
    (by norm_num)

theorem fadd_stuck_again : fadd 1 (1 / 2 ^ 10) = 1 + 1 / 2 ^ 10 := by
  have hq : |(1 + 1 / 2 ^ 10 : ℚ)| = 1 + 1 / 2 ^ 10 := abs_of_pos (by norm_num)
  rw [fadd]
  exact roundDouble_fix (e := 0) (2 ^ 52 + 2 ^ 42) (by rw [hq]; norm_num)
    (by rw [hq]; norm_num) (by norm_num) (by norm_num)

theorem fadd_zero_zero : fadd 0 0 = 0 := by
  rw [fadd, add_zero, roundDouble_zero]

/-- From its first frame on, `stuckParticle` alternates between `x = 1 + 2 ^ (-10)`
and `x = 1`. -/
theorem stuckParticle_cycle (k : Nat) :
    frameBody64^[2 * k + 1] stuckParticle =
        { x := 1 + 1 / 2 ^ 10, y := 0, xv := 1 / 2 ^ 10, yv := 0 } ∧
      frameBody64^[2 * k + 2] stuckParticle =
        { x := 1, y := 0, xv := -(1 / 2 ^ 10), yv := 0 } := by
  have hA : frameBody64 { x := 1 + 1 / 2 ^ 10, y := 0, xv := 1 / 2 ^ 10, yv := 0 } =
      { x := 1, y := 0, xv := -(1 / 2 ^ 10), yv := 0 } := by
    have c1 : (1 + 1 / 2 ^ 10 : ℚ) ≥ 1 ∨ (1 + 1 / 2 ^ 10 : ℚ) ≤ -1 := Or.inl (by norm_num)
    have c2 : ¬ ((0 : ℚ) ≥ 1 ∨ (0 : ℚ) ≤ -1) := by norm_num
    rw [frameBody64_eq]
    simp only [c1, c2, if_true, if_false, fadd_stuck_back, fadd_zero_zero]
  have hB : frameBody64 { x := 1, y := 0, xv := -(1 / 2 ^ 10), yv := 0 } =
      { x := 1 + 1 / 2 ^ 10, y := 0, xv := 1 / 2 ^ 10, yv := 0 } := by
    have c1 : (1 : ℚ) ≥ 1 ∨ (1 : ℚ) ≤ -1 := Or.inl le_rfl
    have c2 : ¬ ((0 : ℚ) ≥ 1 ∨ (0 : ℚ) ≤ -1) := by norm_num
    rw [frameBody64_eq]
    simp only [c1, c2, if_true, if_false, fadd_stuck_again, fadd_zero_zero, neg_neg]
  induction k with
  | zero =>
    have h1 : frameBody64 stuckParticle =
        { x := 1 + 1 / 2 ^ 10, y := 0, xv := 1 / 2 ^ 10, yv := 0 } := by
      have c1 : ¬ ((1 - 1 / 2 ^ 53 : ℚ) ≥ 1 ∨ (1 - 1 / 2 ^ 53 : ℚ) ≤ -1) := by norm_num
      have c2 : ¬ ((0 : ℚ) ≥ 1 ∨ (0 : ℚ) ≤ -1) := by norm_num
      rw [frameBody64_eq]
      simp only [stuckParticle, c1, c2, if_false, fadd_stuck_out, fadd_zero_zero]
    refine ⟨h1, ?_⟩
    show frameBody64^[1 + 1] stuckParticle = _
    rw [Function.iterate_succ_apply', Function.iterate_one, h1, hA]
  | succ k ih =>
    have e1 : 2 * (k + 1) + 1 = (2 * k + 2) + 1 := by ring
    have e2 : 2 * (k + 1) + 2 = ((2 * k + 2) + 1) + 1 := by ring
    have h1 : frameBody64^[2 * (k + 1) + 1] stuckParticle =
        { x := 1 + 1 / 2 ^ 10, y := 0, xv := 1 / 2 ^ 10, yv := 0 } := by
      rw [e1, Function.iterate_succ_apply', ih.2, hB]
    refine ⟨h1, ?_⟩
    rw [e2, Function.iterate_succ_apply', ← e1, h1, hA]

theorem fadd_sample_out : fadd (1 / 2) (3 / 4) = 5 / 4 := by
  have h : (1 / 2 + 3 / 4 : ℚ) = 5 / 4 := by norm_num
  have hq : |(5 / 4 : ℚ)| = 5 / 4 := abs_of_pos (by norm_num)
  rw [fadd, h]
  exact roundDouble_fix (e := 0) (5 * 2 ^ 50) (by rw [hq]; norm_num) (by rw [hq]; norm_num)
    (by norm_num) (by norm_num)

theorem fadd_sample_back : fadd (5 / 4) (-(3 / 4)) = 1 / 2 := by
  have h : (5 / 4 + -(3 / 4) : ℚ) = 1 / 2 := by norm_num
  have hq : |(1 / 2 : ℚ)| = 1 / 2 := abs_of_pos (by norm_num)
  rw [fadd, h]
  exact roundDouble_fix (e := -1) (2 ^ 52) (by rw [hq]; norm_num) (by rw [hq]; norm_num)
    (by norm_num) (by norm_num)

theorem frameBody64_sampleParticle :
    frameBody64 sampleParticle = { x := 5 / 4, y := 0, xv := 3 / 4, yv := 0 } ∧
      frameBody64 { x := 5 / 4, y := 0, xv := 3 / 4, yv := 0 } =
        { x := 1 / 2, y := 0, xv := -(3 / 4), yv := 0 } := by
  have c1 : ¬ ((1 / 2 : ℚ) ≥ 1 ∨ (1 / 2 : ℚ) ≤ -1) := by norm_num
  have c2 : ¬ ((0 : ℚ) ≥ 1 ∨ (0 : ℚ) ≤ -1) := by norm_num
  have c3 : (5 / 4 : ℚ) ≥ 1 ∨ (5 / 4 : ℚ) ≤ -1 := Or.inl (by norm_num)
  constructor
  · rw [frameBody64_eq]
    simp only [sampleParticle, c1, c2, if_false, fadd_sample_out, fadd_zero_zero]
  · rw [frameBody64_eq]
    simp only [c3, c2, if_true, if_false, fadd_sample_back, fadd_zero_zero]

/-- C10, as stated, fails on the numbers the code computes with: `stuckParticle` has
binary64 coordinates and starts strictly inside (-1, 1) on the x axis, yet after one
frame its x position is exactly `1 + |v0|`, not below it; after two frames it is 1,
still at the boundary; and after every later frame it is at or beyond the boundary,
so the excursion never ends. -/
theorem excursion_never_ends_in_binary64 :
    (roundDouble stuckParticle.x = stuckParticle.x ∧
        roundDouble stuckParticle.xv = stuckParticle.xv) ∧
      (-1 < stuckParticle.x ∧ stuckParticle.x < 1) ∧
      (frameBody64 stuckParticle).x = 1 + |stuckParticle.xv| ∧
      ¬ |(frameBody64 stuckParticle).x| < 1 + |stuckParticle.xv| ∧
      (frameBody64 stuckParticle).x ≥ 1 ∧
      (frameBody64 (frameBody64 stuckParticle)).x = 1 ∧
      ¬ (frameBody64 (frameBody64 stuckParticle)).x < 1 ∧
      ∀ k : Nat, (frameBody64^[k + 1] stuckParticle).x ≥ 1 := by
  have h1 : frameBody64 stuckParticle =
      { x := 1 + 1 / 2 ^ 10, y := 0, xv := 1 / 2 ^ 10, yv := 0 } := (stuckParticle_cycle 0).1
  have h2 : frameBody64 (frameBody64 stuckParticle) =
      { x := 1, y := 0, xv := -(1 / 2 ^ 10), yv := 0 } := (stuckParticle_cycle 0).2
  have hv : |stuckParticle.xv| = 1 / 2 ^ 10 := by
    rw [abs_of_pos] <;> norm_num [stuckParticle]
  refine ⟨⟨?_, ?_⟩, ?_, ?_, ?_, ?_, ?_, ?_, ?_⟩
  · have hq : |(1 - 1 / 2 ^ 53 : ℚ)| = 1 - 1 / 2 ^ 53 := abs_of_pos (by norm_num)
    exact roundDouble_fix (e := -1) (2 ^ 53 - 1) (by rw [stuckParticle, hq]; norm_num)
      (by rw [stuckParticle, hq]; norm_num) (by norm_num) (by norm_num [stuckParticle])
  · have hq : |(1 / 2 ^ 10 : ℚ)| = 1 / 2 ^ 10 := abs_of_pos (by norm_num)
    exact roundDouble_fix (e := -10) (2 ^ 52) (by rw [stuckParticle, hq]; norm_num)
      (by rw [stuckParticle, hq]; norm_num) (by norm_num) (by norm_num [stuckParticle])
  · norm_num [stuckParticle]
  · rw [h1, hv]
  · rw [h1, hv, abs_of_pos] <;> norm_num
  · rw [h1]; norm_num
  · rw [h2]
  · rw [h2]; norm_num
  · intro k
    rcases Nat.even_or_odd k with ⟨m, hm⟩ | ⟨m, hm⟩
    · have e : k + 1 = 2 * m + 1 := by omega
      rw [e, (stuckParticle_cycle m).1]; norm_num
    · have e : k + 1 = 2 * m + 2 := by omega
      rw [e, (stuckParticle_cycle m).2]

/-- C10, amended to the numbers the code computes with: for every particle of `points`,
after any number k of frame steps the speed on each axis is the initial one; and if
the position on an axis starts strictly inside (-1, 1) and every update of that
position (line 64, resp. 65) in the frames 1 to k + 1 is exact, that is, incurs no
rounding, then after k frames the position on that axis has magnitude strictly below
1 + |v0|, and if it is at or beyond the boundary after k frames it is strictly inside
(-1, 1) after k + 1 frames. -/
theorem excursion_lasts_one_frame_if_exact (ps : List Particle) (i : Nat) (p : Particle)
    (k : Nat) (hp : ps[i]? = some p) :
    ∃ q r : Particle, (frame64^[k] ps)[i]? = some q ∧ (frame64^[k + 1] ps)[i]? = some r ∧
      |q.xv| = |p.xv| ∧ |q.yv| = |p.yv| ∧
      (-1 < p.x ∧ p.x < 1 →
        (∀ j ≤ k, (frameBody64 (frameBody64^[j] p)).x =
          (frameBody64^[j] p).x + (frameBody64 (frameBody64^[j] p)).xv) →
        |q.x| < 1 + |p.xv| ∧ (q.x ≥ 1 ∨ q.x ≤ -1 → -1 < r.x ∧ r.x < 1)) ∧
      (-1 < p.y ∧ p.y < 1 →
        (∀ j ≤ k, (frameBody64 (frameBody64^[j] p)).y =
          (frameBody64^[j] p).y + (frameBody64 (frameBody64^[j] p)).yv) →
        |q.y| < 1 + |p.yv| ∧ (q.y ≥ 1 ∨ q.y ≤ -1 → -1 < r.y ∧ r.y < 1)) := by
  refine ⟨frameBody64^[k] p, frameBody64^[k + 1] p, ?_, ?_,
    (frameBody64_iterate_speed k p).1, (frameBody64_iterate_speed k p).2, ?_, ?_⟩
  · rw [frame64_iterate_getElem?, hp]; rfl
  · rw [frame64_iterate_getElem?, hp]; rfl
  · rintro ⟨h1, h2⟩ hex
    have a := (frameBody64_iterate_x_of_exact k p fun j hj => hex j (Nat.le_of_lt hj)).1
    have b := (frameBody64_iterate_x_of_exact (k + 1) p
      fun j hj => hex j (Nat.lt_succ_iff.mp hj)).1
    rw [a, b]
    exact frameBody_excursion_x k p h1 h2
  · rintro ⟨h1, h2⟩ hex
    have a := (frameBody64_iterate_y_of_exact k p fun j hj => hex j (Nat.le_of_lt hj)).1
    have b := (frameBody64_iterate_y_of_exact (k + 1) p
      fun j hj => hex j (Nat.lt_succ_iff.mp hj)).1
    rw [a, b]
    exact frameBody_excursion_y k p h1 h2

/-- Witness for the amended C10: `sampleParticle` has binary64 coordinates, its two
first x updates `1/2 + 3/4` and `5/4 - 3/4` are exact, it is outside at `x = 5/4` after
one frame and inside again after two. -/
theorem excursion_lasts_one_frame_if_exact_witness :
    [sampleParticle][0]? = some sampleParticle ∧
      (-1 < sampleParticle.x ∧ sampleParticle.x < 1) ∧
      (∀ j ≤ 1, (frameBody64 (frameBody64^[j] sampleParticle)).x =
        (frameBody64^[j] sampleParticle).x +
          (frameBody64 (frameBody64^[j] sampleParticle)).xv) ∧
      ∃ q r : Particle, (frame64^[1] [sampleParticle])[0]? = some q ∧
        (frame64^[1 + 1] [sampleParticle])[0]? = some r ∧
        q.x = 5 / 4 ∧ |q.xv| = |sampleParticle.xv| ∧ -1 < r.x ∧ r.x < 1 := by
  have hin : -1 < sampleParticle.x ∧ sampleParticle.x < 1 := by
    norm_num [sampleParticle]
  obtain ⟨e0, e1⟩ := frameBody64_sampleParticle
  have hex : ∀ j ≤ 1, (frameBody64 (frameBody64^[j] sampleParticle)).x =
      (frameBody64^[j] sampleParticle).x +
        (frameBody64 (frameBody64^[j] sampleParticle)).xv := by
    intro j hj
    interval_cases j
    · rw [Function.iterate_zero, id, e0]; norm_num [sampleParticle]
    · rw [Function.iterate_one, e0, e1]; norm_num
  obtain ⟨q, r, hq, hr, hs, _, hx, _⟩ :=
    excursion_lasts_one_frame_if_exact [sampleParticle] 0 sampleParticle 1 rfl
  obtain ⟨_, h3⟩ := hx hin hex
  have hqx : q.x = 5 / 4 := by
    simp only [Function.iterate_one, frame64, List.getElem?_cons_zero,
      Option.some.injEq] at hq
    rw [← hq, e0]
  refine ⟨rfl, hin, hex, q, r, hq, hr, hqx, hs, h3 (Or.inl ?_)⟩
  rw [hqx]; norm_num

end ParticlesAnimated

namespace AnimateFromTo

/-! ## The vertex stage -/

theorem newpos_x (time : ℚ) (a : Attributes) :
    (newpos time a).x =
      a.position.x + (a.endpos.x - a.position.x) * ((time - a.birth) / |a.velocity.x|) := rfl

theorem newpos_y (time : ℚ) (a : Attributes) :
    (newpos time a).y =
      a.position.y + (a.endpos.y - a.position.y) * ((time - a.birth) / |a.velocity.x|) := rfl

theorem newpos_eq_endpos_iff (time : ℚ) (a : Attributes) (hv : a.velocity.x ≠ 0)
    (hd : a.position ≠ a.endpos) :
    newpos time a = a.endpos ↔ time - a.birth = |a.velocity.x| := by
  have hpos : (0 : ℚ) < |a.velocity.x| := abs_pos.mpr hv
  rw [Vec2.ext_iff, newpos_x, newpos_y]
  constructor
  · rintro ⟨h1, h2⟩
    have hne : a.endpos.x - a.position.x ≠ 0 ∨ a.endpos.y - a.position.y ≠ 0 := by
      by_contra hcon
      push_neg at hcon
      apply hd
      rw [Vec2.ext_iff]
      constructor <;> linarith [hcon.1, hcon.2]
    have ht : (time - a.birth) / |a.velocity.x| = 1 := by
      rcases hne with hne | hne
      · have : (a.endpos.x - a.position.x) * ((time - a.birth) / |a.velocity.x| - 1) = 0 := by
          linarith
        rcases mul_eq_zero.mp this with h | h
        · exact absurd h hne
        · linarith
      · have : (a.endpos.y - a.position.y) * ((time - a.birth) / |a.velocity.x| - 1) = 0 := by
          linarith
        rcases mul_eq_zero.mp this with h | h
        · exact absurd h hne
        · linarith
    rwa [div_eq_one_iff_eq hpos.ne'] at ht
  · intro h
    rw [h, div_self hpos.ne']
    constructor <;> ring

/-- C8: with `newpos = position + (endpos - position) * ((time - birth) / |velocity.x|)`
and `velocity.x != 0`, the point size is 0 if and only if `newpos.x > endpos.x` and is
10 otherwise; when `newpos.x` equals `endpos.x` the size is 10.  The hypothesis keeps
to the inputs on which the shader's division is defined. -/
theorem pointSize_zero_iff_past_target (tick time : ℚ) (a : Attributes)
    (_hv : a.velocity.x ≠ 0) :
    (newpos time a).x =
        a.position.x + (a.endpos.x - a.position.x) * ((time - a.birth) / |a.velocity.x|) ∧
      (newpos time a).y =
        a.position.y + (a.endpos.y - a.position.y) * ((time - a.birth) / |a.velocity.x|) ∧
      (vertMain tick time a).gl_Position = ⟨(newpos time a).x, (newpos time a).y, 0, 1⟩ ∧
      ((vertMain tick time a).gl_PointSize = 0 ↔ (newpos time a).x > a.endpos.x) ∧
      (¬ (newpos time a).x > a.endpos.x → (vertMain tick time a).gl_PointSize = 10) ∧
      ((newpos time a).x = a.endpos.x → (vertMain tick time a).gl_PointSize = 10) := by
  refine ⟨rfl, rfl, rfl, ?_, ?_, ?_⟩
  · by_cases h : (newpos time a).x > a.endpos.x <;> simp [vertMain, h]
  · intro h; simp [vertMain, h]
  · intro h; simp [vertMain, h]

/-- Witness for C8: a vertex with `velocity.x = 2` is exactly at its target at
`time - birth = 2` and still has size 10; a moment later its size is 0. -/
theorem pointSize_zero_iff_past_target_witness :
    (sampleVertex 2).velocity.x ≠ 0 ∧
      (newpos 2 (sampleVertex 2)).x = (sampleVertex 2).endpos.x ∧
      (vertMain 0 2 (sampleVertex 2)).gl_PointSize = 10 ∧
      (vertMain 0 3 (sampleVertex 2)).gl_PointSize = 0 := by
  have hv : (sampleVertex 2).velocity.x ≠ 0 := by norm_num [sampleVertex]
  have h2 := pointSize_zero_iff_past_target 0 2 (sampleVertex 2) hv
  have h3 := pointSize_zero_iff_past_target 0 3 (sampleVertex 2) hv
  have e2 : (newpos 2 (sampleVertex 2)).x = (sampleVertex 2).endpos.x := by
    rw [h2.1]; norm_num [sampleVertex]
  refine ⟨hv, e2, h2.2.2.2.2.2 e2, h3.2.2.2.1.mpr ?_⟩
  rw [h3.1]; norm_num [sampleVertex]

/-- C9, as stated, fails: no constant k > 0 makes every particle with
`velocity.x != 0` and start different from target reach `endpos` at elapsed time
`k / |velocity.x|`. -/
theorem travel_time_not_inverse_of_velocity :
    ¬ ∃ k : ℚ, 0 < k ∧ ∀ a : Attributes, a.velocity.x ≠ 0 → a.position ≠ a.endpos →
      newpos (a.birth + k / |a.velocity.x|) a = a.endpos := by
  rintro ⟨k, _, h⟩
  have h1 := h (sampleVertex 1) (by norm_num [sampleVertex]) (by simp [sampleVertex])
  have h2 := h (sampleVertex 2) (by norm_num [sampleVertex]) (by simp [sampleVertex])
  rw [newpos_eq_endpos_iff _ _ (by norm_num [sampleVertex]) (by simp [sampleVertex])] at h1 h2
  norm_num [sampleVertex] at h1 h2
  rw [h1] at h2
  norm_num at h2

/-- C9, amended: a particle's travel time to target is directly proportional to its
x-velocity magnitude, with constant 1: for every particle with `velocity.x != 0` and
start position different from its target, the interpolated position equals `endpos`
exactly when the elapsed time since birth is `|velocity.x|`. -/
theorem travel_time_eq_abs_velocity (time : ℚ) (a : Attributes) (hv : a.velocity.x ≠ 0)
    (hd : a.position ≠ a.endpos) :
    (newpos time a = a.endpos ↔ time - a.birth = 1 * |a.velocity.x|) ∧
      newpos (a.birth + 1 * |a.velocity.x|) a = a.endpos := by
  rw [one_mul]
  refine ⟨newpos_eq_endpos_iff time a hv hd, ?_⟩
  rw [newpos_eq_endpos_iff _ a hv hd]
  ring

/-- Witness for the amended C9: with `velocity.x = 2` the target is reached at
elapsed time 2, not at 1/2. -/
theorem travel_time_eq_abs_velocity_witness :
    (sampleVertex 2).velocity.x ≠ 0 ∧ (sampleVertex 2).position ≠ (sampleVertex 2).endpos ∧
      newpos 2 (sampleVertex 2) = (sampleVertex 2).endpos ∧
      newpos (1 / 2) (sampleVertex 2) ≠ (sampleVertex 2).endpos := by
  have hv : (sampleVertex 2).velocity.x ≠ 0 := by norm_num [sampleVertex]
  have hd : (sampleVertex 2).position ≠ (sampleVertex 2).endpos := by simp [sampleVertex]
  refine ⟨hv, hd, ?_, ?_⟩
  · rw [(travel_time_eq_abs_velocity 2 (sampleVertex 2) hv hd).1]
    norm_num [sampleVertex]
  · rw [Ne, (travel_time_eq_abs_velocity (1 / 2) (sampleVertex 2) hv hd).1]
    norm_num [sampleVertex]

end AnimateFromTo
